import Mathlib

/-! # ctcdecode-pytorch: the KenLM scorer and the `beam_decoder` binding

A shallow embedding of `src/ctcdecode/csrc/KenLM.cpp` (`KenLM::score`,
`KenLM::finish`, `KenLM::compareState`) and of the result packing done by
`beam_decoder` in `src/ctcdecode/csrc/binding.cpp`.

Conventions of the embedding.

* `float` values live in an arbitrary carrier `F`; the operations `KenLM.cpp`
  applies to them (`+`, `/`) and the constants it reads from
  `decoder_utils.h` (`OOV_SCORE`, `NUM_FLT_LOGE`) are fields of `FloatOps F`.
  General theorems hold for every interpretation of these operations;
  concrete runs use exact rational arithmetic.
* The `double` argument `cutoff_prob` of `beam_decoder` lives in a carrier `D`
  of its own, with the function `log` applied to it as a parameter; concrete
  runs keep `log` as a term, the logarithm of a rational not being rational.
* The n-gram model, its vocabulary and its state type belong to the KenLM
  library; they are the fields of `NGramModel Ctx F`.
* Every call the code makes into the n-gram model is recorded in a call log,
  so that "the model is (not) consulted" is a statement about that log.
-/

namespace CTCDecode

/-! ## Data model -/

/-- Modelled from the spec: the `LMUnit` enumeration of `LM.h` (the header is
not part of the sources); the spec names the two unit modes, character and
word. `KenLM.cpp` only ever tests `unit == LMUnit::Word`. -/
inductive LMUnit where
  | Char
  | Word
  deriving DecidableEq

/-- The `float` operations and constants used by the code. `one` is the value
of the integer literal `1` converted to `float`, `zero` the literal `0.0`.
`OOV_SCORE` and `NUM_FLT_LOGE` are the constants of `decoder_utils.h`. -/
structure FloatOps (F : Type) where
  zero : F
  one : F
  add : F → F → F
  div : F → F → F
  OOV_SCORE : F
  NUM_FLT_LOGE : F

/-- The interface of `Tokenizer` used by `KenLM.cpp`. -/
structure Tokenizer where
  getSpaceIndex : Int
  getEntry : Int → String

/-- Modelled from the spec: `Tokenizer::mapIndicesToEntries` (its definition is
not part of the sources); the spec describes it as the index to entry mapping
applied to a list of indices, `map_indices_to_entries([idx]) → [string]`. -/
def Tokenizer.mapIndicesToEntries (tk : Tokenizer) (indices : List Int) : List String :=
  indices.map tk.getEntry

/-- The KenLM library as seen by `KenLM.cpp`: the vocabulary (`Index`,
`EndSentence`), the scoring function `BaseScore(in_state, new_word, out_state)`
which returns the log-base-10 score and the state written to `out_state`, the
two start contexts, and `operator==` / `Compare` of `lm::ngram::State`. -/
structure NGramModel (Ctx F : Type) where
  Index : String → Nat
  EndSentence : Nat
  BaseScore : Ctx → Nat → F × Ctx
  NullContextWrite : Ctx
  BeginSentenceWrite : Ctx
  stateEq : Ctx → Ctx → Bool
  stateCompare : Ctx → Ctx → Int

/-- The struct `KenLMState`: the model state and the buffered token indices of
the current partial word. -/
structure KenLMState (Ctx : Type) where
  state : Ctx
  tokens : List Int
  deriving DecidableEq

/-- A call into the n-gram model. -/
inductive Call (Ctx : Type) where
  | Index (entry : String)
  | BaseScore (inState : Ctx) (word : Nat)
  deriving DecidableEq

/-- The object `KenLM`: unit mode, tokenizer, model, and the value of the
`state` member of a `KenLMState` created by `std::make_shared<KenLMState>()`
before anything is written to it (`KenLM.h` is not part of the sources). -/
structure KenLM (Ctx F : Type) where
  unit : LMUnit
  tokenizer : Tokenizer
  model : NGramModel Ctx F
  fl : FloatOps F
  defaultState : Ctx

/-- The effect of one call of `score` or `finish`: the object `*inState` after
the call, the returned pair (`out`, `delta`), and the calls made into the
n-gram model, in order. -/
structure LMResult (Ctx F : Type) where
  inState : KenLMState Ctx
  out : KenLMState Ctx
  delta : F
  calls : List (Call Ctx)

/-! ## `KenLM.cpp` -/

namespace KenLM

variable {Ctx F : Type}

/-- The object made by `std::make_shared<KenLMState>()`. -/
def newState (lm : KenLM Ctx F) : KenLMState Ctx :=
  { state := lm.defaultState, tokens := [] }

/-- The member function `KenLM::start`. -/
def start (lm : KenLM Ctx F) (startWithNothing : Bool) : KenLMState Ctx :=
  let outState := lm.newState
  if startWithNothing then
    { outState with state := lm.model.NullContextWrite }
  else
    { outState with state := lm.model.BeginSentenceWrite }

/-- The member function `KenLM::score`. -/
def score (lm : KenLM Ctx F) (inState : KenLMState Ctx) (token_index : Int) : LMResult Ctx F :=
  let outState := lm.newState
  if lm.unit = LMUnit.Word ∧ token_index ≠ lm.tokenizer.getSpaceIndex then
    -- *outState = *inState; outState->tokens.push_back(token_index);
    let outState := inState
    let outState := { outState with tokens := outState.tokens ++ [token_index] }
    { inState := inState, out := outState, delta := lm.fl.one, calls := [] }
  else
    let entry : String :=
      if lm.unit = LMUnit.Word then
        (lm.tokenizer.mapIndicesToEntries inState.tokens).foldl (fun acc piece => acc ++ piece) ""
      else
        lm.tokenizer.getEntry token_index
    let lm_token_index := lm.model.Index entry
    if lm_token_index = 0 then
      { inState := inState, out := outState, delta := lm.fl.OOV_SCORE,
        calls := [Call.Index entry] }
    else
      let r := lm.model.BaseScore inState.state lm_token_index
      { inState := inState, out := { outState with state := r.2 },
        delta := lm.fl.div r.1 lm.fl.NUM_FLT_LOGE,
        calls := [Call.Index entry, Call.BaseScore inState.state lm_token_index] }

/-- The member function `KenLM::finish`. -/
def finish (lm : KenLM Ctx F) (state : KenLMState Ctx) : LMResult Ctx F :=
  let outState := lm.newState
  let score0 := lm.fl.zero
  if lm.unit = LMUnit.Word ∧ state.tokens.length > 0 then
    let output := lm.score state lm.tokenizer.getSpaceIndex
    let inState := output.out
    let score1 := lm.fl.add score0 output.delta
    let r := lm.model.BaseScore inState.state lm.model.EndSentence
    let score2 := lm.fl.add score1 r.1
    { inState := output.inState, out := { outState with state := r.2 },
      delta := lm.fl.div score2 lm.fl.NUM_FLT_LOGE,
      calls := output.calls ++ [Call.BaseScore inState.state lm.model.EndSentence] }
  else
    let inState := state
    let r := lm.model.BaseScore inState.state lm.model.EndSentence
    let score2 := lm.fl.add score0 r.1
    { inState := state, out := { outState with state := r.2 },
      delta := lm.fl.div score2 lm.fl.NUM_FLT_LOGE,
      calls := [Call.BaseScore inState.state lm.model.EndSentence] }

/-- The member function `KenLM::compareState`. -/
def compareState (lm : KenLM Ctx F) (state1 state2 : KenLMState Ctx) : Int :=
  if lm.model.stateEq state1.state state2.state then 0
  else lm.model.stateCompare state1.state state2.state

/-- Scoring a token sequence left to right, each call receiving the state
returned by the previous one: the final state and the call log of every
token. -/
def scoreAll (lm : KenLM Ctx F) : KenLMState Ctx → List Int → KenLMState Ctx × List (List (Call Ctx))
  | s, [] => (s, [])
  | s, t :: ts =>
    let r := lm.score s t
    let rest := scoreAll lm r.out ts
    (rest.1, r.calls :: rest.2)

end KenLM

/-! ## `binding.cpp` -/

/-- Modelled from the spec: the record `Output` of `output.h` (the header is
not part of the sources); the spec gives it as
`{tokens: [int], timesteps: [int], probability: float}`. -/
structure Output (F : Type) where
  tokens : List Int
  timesteps : List Int
  probability : F

/-- How a call ends: with a value, with an exception, or outside the
contract of an unchecked accessor (an index out of range). -/
inductive Outcome (α : Type) where
  | ok (value : α)
  | error (msg : String)
  | undefined

/-- The value of an outcome, if there is one. -/
def Outcome.toOption {α : Type} : Outcome α → Option α
  | Outcome.ok v => some v
  | Outcome.error _ => none
  | Outcome.undefined => none

/-- Conversion of an integer to a 32-bit `int` / `int32_t`. -/
def toInt32 (x : Int) : Int := Int.bmod x (2 ^ 32)

/-- Conversion of an integer to a 64-bit `size_t`. -/
def toSizeT (x : Int) : Nat := (x % 2 ^ 64).toNat

/-- A three-dimensional tensor seen through `accessor<T, 3>`. -/
structure Tensor3 (α : Type) where
  d0 : Nat
  d1 : Nat
  d2 : Nat
  data : Nat → Nat → Nat → α

/-- A two-dimensional tensor seen through `accessor<T, 2>`. -/
structure Tensor2 (α : Type) where
  d0 : Nat
  d1 : Nat
  data : Nat → Nat → α

/-- The assignment `a[i][j][k] = v`; `none` when an index is out of range. -/
def Tensor3.set {α : Type} (a : Tensor3 α) (i j k : Nat) (v : α) : Option (Tensor3 α) :=
  if i < a.d0 ∧ j < a.d1 ∧ k < a.d2 then
    some { a with data := fun x y z => if x = i ∧ y = j ∧ z = k then v else a.data x y z }
  else none

/-- The assignment `a[i][j] = v`; `none` when an index is out of range. -/
def Tensor2.set {α : Type} (a : Tensor2 α) (i j : Nat) (v : α) : Option (Tensor2 α) :=
  if i < a.d0 ∧ j < a.d1 then
    some { a with data := fun x y => if x = i ∧ y = j then v else a.data x y }
  else none

/-- An input tensor whose element type is the one that `data<T>()` is called
with (`float` for `log_probs`, `int` for `seq_lengths`): its sizes, whether it
is contiguous, and its data. -/
structure InTensor (α : Type) where
  sizes : List Nat
  is_contiguous : Bool
  data : List α

/-- The call `tensor.size(i)`; an exception when the tensor has no dimension `i`. -/
def InTensor.size {α : Type} (a : InTensor α) (i : Nat) : Outcome Nat :=
  match a.sizes[i]? with
  | some n => Outcome.ok n
  | none => Outcome.error "Dimension out of range"

/-- The arguments received by `ctc_beam_search_decoder_batch`, with the types
of its declaration in `ctc_beam_search_decoder.h`; `D` is the type `double`
of `cutoff_prob`. -/
structure DecoderArgs (F D L : Type) where
  log_probs : List F
  batch_size : Int
  time_dim : Int
  class_dim : Int
  seq_lengths : List Int
  seq_lengths_size : Int
  blank_id : Int
  beam_size : Nat
  num_processes : Nat
  cutoff_prob : D
  cutoff_top_n : Nat
  lm : L
  deriving DecidableEq

/-- The four tensors filled by `beam_decoder`. -/
structure Tensors (F : Type) where
  output : Tensor3 Int
  timesteps : Tensor3 Int
  scores : Tensor2 F
  output_length : Tensor2 Int

/-- The contents of the memory that `torch::empty` hands out. -/
structure Uninit (F : Type) where
  output : Nat → Nat → Nat → Int
  timesteps : Nat → Nat → Nat → Int
  scores : Nat → Nat → F
  output_length : Nat → Nat → Int

/-- The four `torch::empty` calls of `beam_decoder`. -/
def Tensors.empty {F : Type} (u : Uninit F) (batch_size beam_size max_time : Nat) : Tensors F :=
  { output := { d0 := batch_size, d1 := beam_size, d2 := max_time, data := u.output }
    timesteps := { d0 := batch_size, d1 := beam_size, d2 := max_time, data := u.timesteps }
    scores := { d0 := batch_size, d1 := beam_size, data := u.scores }
    output_length := { d0 := batch_size, d1 := beam_size, data := u.output_length } }

/-- The loop `for (int t = 0; t < output_tokens.size(); ++t)` of `beam_decoder`,
with `n` iterations left and the counter at `t`. -/
def tokenLoop {F : Type} (b p : Nat) (out : Output F) : Nat → Nat → Tensors F → Option (Tensors F)
  | 0, _, T => some T
  | n + 1, t, T => do
    let tok ← out.tokens[t]?
    let o ← T.output.set b p t tok
    let ts ← out.timesteps[t]?
    let tm ← T.timesteps.set b p t ts
    tokenLoop b p out n (t + 1) { T with output := o, timesteps := tm }

/-- The loop `for (int p = 0; p < results.size(); ++p)` of `beam_decoder`,
with `n` iterations left and the counter at `p`. -/
def hypLoop {F : Type} (b : Nat) (results : List (Output F)) :
    Nat → Nat → Tensors F → Option (Tensors F)
  | 0, _, T => some T
  | n + 1, p, T => do
    let out ← results[p]?
    let T1 ← tokenLoop b p out out.tokens.length 0 T
    let sc ← T1.scores.set b p out.probability
    let ol ← T1.output_length.set b p (toInt32 out.tokens.length)
    hypLoop b results n (p + 1) { T1 with scores := sc, output_length := ol }

/-- The loop `for (int b = 0; b < batch_results.size(); ++b)` of
`beam_decoder`, with `n` iterations left and the counter at `b`. -/
def batchLoop {F : Type} (batch_results : List (List (Output F))) :
    Nat → Nat → Tensors F → Option (Tensors F)
  | 0, _, T => some T
  | n + 1, b, T => do
    let results ← batch_results[b]?
    let T1 ← hypLoop b results results.length 0 T
    batchLoop batch_results n (b + 1) T1

/-- The argument list of the call of `ctc_beam_search_decoder_batch` in
`beam_decoder`, with the conversions to the parameter types of its
declaration (`int64_t` to `int`, `int` to `size_t`) and `log(cutoff_prob)`. -/
def decoderArgs {F D L : Type} (log : D → D) (log_probs : InTensor F)
    (seq_lengths : InTensor Int) (batch_size max_time num_classes seq_lengths_size : Nat)
    (blank_id beam_size num_processes : Int) (cutoff_prob : D) (cutoff_top_n : Int)
    (scorer : L) : DecoderArgs F D L :=
  { log_probs := log_probs.data
    batch_size := toInt32 batch_size
    time_dim := toInt32 max_time
    class_dim := toInt32 num_classes
    seq_lengths := seq_lengths.data
    seq_lengths_size := toInt32 seq_lengths_size
    blank_id := blank_id
    beam_size := toSizeT beam_size
    num_processes := toSizeT num_processes
    cutoff_prob := log cutoff_prob
    cutoff_top_n := toSizeT cutoff_top_n
    lm := scorer }

/-- The part of `beam_decoder` after the decoder call: the four `torch::empty`
calls (an exception for a negative size), the three nested loops, and the
returned tuple `(output, scores, timesteps, output_length)`. -/
def packResults {F : Type} (u : Uninit F) (batch_size : Nat) (beam_size : Int) (max_time : Nat)
    (batch_results : List (List (Output F))) :
    Outcome (Tensor3 Int × Tensor2 F × Tensor3 Int × Tensor2 Int) :=
  if beam_size < 0 then Outcome.error "Trying to create tensor with negative dimension"
  else
    match batchLoop batch_results batch_results.length 0
        (Tensors.empty u batch_size beam_size.toNat max_time) with
    | some T => Outcome.ok (T.output, T.scores, T.timesteps, T.output_length)
    | none => Outcome.undefined

/-- The function `beam_decoder`. The batch decoder, declared in
`ctc_beam_search_decoder.h`, is the parameter `decoder`; `log` is the
logarithm of `double` values; `u` is the content of the memory returned by
`torch::empty`. -/
def beam_decoder {F D L : Type} (log : D → D)
    (decoder : DecoderArgs F D L → Outcome (List (List (Output F)))) (u : Uninit F)
    (log_probs : InTensor F) (seq_lengths : InTensor Int)
    (blank_id beam_size num_processes : Int) (cutoff_prob : D) (cutoff_top_n : Int)
    (scorer : L) : Outcome (Tensor3 Int × Tensor2 F × Tensor3 Int × Tensor2 Int) :=
  if log_probs.is_contiguous = false then Outcome.error "log_probs.is_contiguous()"
  else if seq_lengths.is_contiguous = false then Outcome.error "seq_lengths.is_contiguous()"
  else
    match log_probs.size 0, log_probs.size 1, log_probs.size 2, seq_lengths.size 0 with
    | Outcome.ok batch_size, Outcome.ok max_time, Outcome.ok num_classes,
        Outcome.ok seq_lengths_size =>
      match decoder (decoderArgs log log_probs seq_lengths batch_size max_time num_classes
          seq_lengths_size blank_id beam_size num_processes cutoff_prob cutoff_top_n
          scorer) with
      | Outcome.ok batch_results => packResults u batch_size beam_size max_time batch_results
      | Outcome.error msg => Outcome.error msg
      | Outcome.undefined => Outcome.undefined
    | Outcome.error msg, _, _, _ => Outcome.error msg
    | _, Outcome.error msg, _, _ => Outcome.error msg
    | _, _, Outcome.error msg, _ => Outcome.error msg
    | _, _, _, Outcome.error msg => Outcome.error msg
    | _, _, _, _ => Outcome.undefined

/-- The four tensors have the sizes given by `beam_decoder`:
`{B, P, M}` for `output` and `timesteps`, `{B, P}` for `scores` and
`output_length`. -/
def Tensors.HasShape {F : Type} (T : Tensors F) (B P M : Nat) : Prop :=
  T.output.d0 = B ∧ T.output.d1 = P ∧ T.output.d2 = M ∧
  T.timesteps.d0 = B ∧ T.timesteps.d1 = P ∧ T.timesteps.d2 = M ∧
  T.scores.d0 = B ∧ T.scores.d1 = P ∧
  T.output_length.d0 = B ∧ T.output_length.d1 = P

/-! ## A concrete language model, for running the code -/

namespace Demo

/-- Entries of the demo tokenizer: index `1` is the space, `2..5` are the
letters `a..d`. -/
def getEntry (i : Int) : String :=
  if i = 1 then " " else if i = 2 then "a" else if i = 3 then "b"
  else if i = 4 then "c" else if i = 5 then "d" else "?"

/-- Vocabulary of the demo model: `0` is the unknown word. -/
def Index (w : String) : Nat :=
  if w = "a" then 1 else if w = "ab" then 2 else if w = "cd" then 3 else 0

/-- Exact rational arithmetic, `OOV_SCORE = -1000`,
`NUM_FLT_LOGE = 0.4342944819`. -/
def fl : FloatOps ℚ :=
  { zero := 0, one := 1, add := fun a b => a + b, div := fun a b => a / b,
    OOV_SCORE := -1000, NUM_FLT_LOGE := 4342944819 / 10000000000 }

/-- A bigram-like model: the context is the list of the last words (at most
two), the score depends on the word and on the context length. -/
def model : NGramModel (List Nat) ℚ :=
  { Index := Index
    EndSentence := 9
    BaseScore := fun ctx w => (-((w : ℚ) + ctx.length), (w :: ctx).take 2)
    NullContextWrite := []
    BeginSentenceWrite := [8]
    stateEq := fun a b => decide (a = b)
    stateCompare := fun a b => if a = b then 0 else if a.length < b.length then -1 else 1 }

/-- The demo tokenizer, with `space_index = 1`. -/
def tokenizer : Tokenizer := { getSpaceIndex := 1, getEntry := getEntry }

/-- Word-unit demo LM. -/
def wordLM : KenLM (List Nat) ℚ :=
  { unit := LMUnit.Word, tokenizer := tokenizer, model := model, fl := fl, defaultState := [] }

/-- Character-unit demo LM. -/
def charLM : KenLM (List Nat) ℚ :=
  { unit := LMUnit.Char, tokenizer := tokenizer, model := model, fl := fl, defaultState := [] }

/-- A `double` of the runs: a rational constant, or the logarithm of such a
value kept as a term. -/
inductive Dbl where
  | val (q : ℚ)
  | log (x : Dbl)
  deriving DecidableEq

/-- A batch decoder returning fixed results for a batch of two: one hypothesis
of two tokens for the first entry, none for the second. -/
def fixedDecoder (_ : DecoderArgs ℚ Dbl Unit) : Outcome (List (List (Output ℚ))) :=
  Outcome.ok [[{ tokens := [4, 6], timesteps := [0, 2], probability := -3 / 2 }], []]

/-- Memory contents before `beam_decoder` writes to them: every cell is
non-zero. -/
def garbage : Uninit ℚ :=
  { output := fun _ _ _ => 7, timesteps := fun _ _ _ => 8, scores := fun _ _ => 9,
    output_length := fun _ _ => 5 }

/-- A contiguous `log_probs` tensor of shape `(2, 3, 4)`. -/
def logProbs : InTensor ℚ :=
  { sizes := [2, 3, 4], is_contiguous := true, data := List.replicate 24 (-1) }

/-- A contiguous `seq_lengths` tensor for a batch of two. -/
def seqLengths : InTensor Int :=
  { sizes := [2], is_contiguous := true, data := [3, 3] }

end Demo

/-! ## Theorems about `KenLM.cpp` -/

namespace KenLM

variable {Ctx F : Type}

/-- In word mode a token other than the space is only buffered. -/
theorem score_word_defer (lm : KenLM Ctx F) (s : KenLMState Ctx) (t : Int)
    (hw : lm.unit = LMUnit.Word) (ht : t ≠ lm.tokenizer.getSpaceIndex) :
    lm.score s t =
      { inState := s, out := { state := s.state, tokens := s.tokens ++ [t] },
        delta := lm.fl.one, calls := [] } := by
  simp [score, hw, ht]

/-- In word mode the space token looks up the word assembled from the buffer;
the returned state always has an empty buffer. -/
theorem score_word_space (lm : KenLM Ctx F) (s : KenLMState Ctx)
    (hw : lm.unit = LMUnit.Word) :
    lm.score s lm.tokenizer.getSpaceIndex =
      (if lm.model.Index (String.join (s.tokens.map lm.tokenizer.getEntry)) = 0 then
        { inState := s, out := { state := lm.defaultState, tokens := [] },
          delta := lm.fl.OOV_SCORE,
          calls := [Call.Index (String.join (s.tokens.map lm.tokenizer.getEntry))] }
      else
        { inState := s,
          out := { state := (lm.model.BaseScore s.state
                    (lm.model.Index (String.join (s.tokens.map lm.tokenizer.getEntry)))).2,
                   tokens := [] },
          delta := lm.fl.div (lm.model.BaseScore s.state
                    (lm.model.Index (String.join (s.tokens.map lm.tokenizer.getEntry)))).1
                    lm.fl.NUM_FLT_LOGE,
          calls := [Call.Index (String.join (s.tokens.map lm.tokenizer.getEntry)),
                    Call.BaseScore s.state
                      (lm.model.Index (String.join (s.tokens.map lm.tokenizer.getEntry)))] }) := by
  simp only [score, hw, ne_eq, not_true_eq_false, and_false, if_false, if_true, newState,
    Tokenizer.mapIndicesToEntries, String.join]

/-- The model is consulted by `score` in word mode exactly when the token is
the space. -/
theorem score_word_calls (lm : KenLM Ctx F) (s : KenLMState Ctx) (t : Int)
    (hw : lm.unit = LMUnit.Word) :
    (lm.score s t).calls ≠ [] ↔ t = lm.tokenizer.getSpaceIndex := by
  by_cases ht : t = lm.tokenizer.getSpaceIndex
  · subst ht
    rw [score_word_space lm s hw]
    split <;> simp
  · rw [score_word_defer lm s t hw ht]
    simp [ht]

/-- After the space token the buffer of the returned state is empty. -/
theorem score_word_space_tokens (lm : KenLM Ctx F) (s : KenLMState Ctx)
    (hw : lm.unit = LMUnit.Word) :
    (lm.score s lm.tokenizer.getSpaceIndex).out.tokens = [] := by
  rw [score_word_space lm s hw]
  split <;> rfl

/-- Scoring a concatenation is scoring its two parts in turn. -/
theorem scoreAll_append (lm : KenLM Ctx F) (s : KenLMState Ctx) (xs ys : List Int) :
    lm.scoreAll s (xs ++ ys) =
      ((lm.scoreAll (lm.scoreAll s xs).1 ys).1,
        (lm.scoreAll s xs).2 ++ (lm.scoreAll (lm.scoreAll s xs).1 ys).2) := by
  induction xs generalizing s with
  | nil => simp [scoreAll]
  | cons x xs ih => simp [scoreAll, ih]

/-- Scoring tokens none of which is the space only extends the buffer, and
never consults the model. -/
theorem scoreAll_no_space (lm : KenLM Ctx F) (hw : lm.unit = LMUnit.Word)
    (s : KenLMState Ctx) (ts : List Int) (hts : ∀ t ∈ ts, t ≠ lm.tokenizer.getSpaceIndex) :
    lm.scoreAll s ts =
      ({ state := s.state, tokens := s.tokens ++ ts }, List.replicate ts.length []) := by
  induction ts generalizing s with
  | nil => simp [scoreAll]
  | cons t ts ih =>
    have ht : t ≠ lm.tokenizer.getSpaceIndex := hts t (List.mem_cons_self t ts)
    have hrest : ∀ u ∈ ts, u ≠ lm.tokenizer.getSpaceIndex :=
      fun u hu => hts u (List.mem_cons_of_mem t hu)
    simp [scoreAll, score_word_defer lm s t hw ht, ih _ hrest, List.replicate_succ]

/-- The call log of every token of a sequence scored in word mode is non-empty
exactly for the space tokens. -/
theorem scoreAll_logs (lm : KenLM Ctx F) (hw : lm.unit = LMUnit.Word)
    (s : KenLMState Ctx) (ts : List Int) :
    ∀ (i : Nat) (t : Int), ts[i]? = some t →
      ∃ log : List (Call Ctx), (lm.scoreAll s ts).2[i]? = some log ∧
        (log ≠ [] ↔ t = lm.tokenizer.getSpaceIndex) := by
  induction ts generalizing s with
  | nil => intro i t h; simp at h
  | cons u us ih =>
    intro i t h
    cases i with
    | zero =>
      simp only [List.getElem?_cons_zero, Option.some.injEq] at h
      subst h
      exact ⟨(lm.score s u).calls, by simp [scoreAll], score_word_calls lm s u hw⟩
    | succ j =>
      simp only [List.getElem?_cons_succ] at h
      obtain ⟨log, hlog, hiff⟩ := ih (lm.score s u).out j t h
      exact ⟨log, by simpa [scoreAll] using hlog, hiff⟩

/-- What `finish` computes, in both of its branches. -/
theorem finish_eq (lm : KenLM Ctx F) (s : KenLMState Ctx) :
    lm.finish s =
      (if lm.unit = LMUnit.Word ∧ s.tokens ≠ [] then
        { inState := (lm.score s lm.tokenizer.getSpaceIndex).inState,
          out := { state := (lm.model.BaseScore
                    (lm.score s lm.tokenizer.getSpaceIndex).out.state lm.model.EndSentence).2,
                   tokens := [] },
          delta := lm.fl.div
            (lm.fl.add (lm.fl.add lm.fl.zero (lm.score s lm.tokenizer.getSpaceIndex).delta)
              (lm.model.BaseScore
                (lm.score s lm.tokenizer.getSpaceIndex).out.state lm.model.EndSentence).1)
            lm.fl.NUM_FLT_LOGE,
          calls := (lm.score s lm.tokenizer.getSpaceIndex).calls ++
            [Call.BaseScore (lm.score s lm.tokenizer.getSpaceIndex).out.state
              lm.model.EndSentence] }
      else
        { inState := s,
          out := { state := (lm.model.BaseScore s.state lm.model.EndSentence).2, tokens := [] },
          delta := lm.fl.div (lm.fl.add lm.fl.zero
            (lm.model.BaseScore s.state lm.model.EndSentence).1) lm.fl.NUM_FLT_LOGE,
          calls := [Call.BaseScore s.state lm.model.EndSentence] }) := by
  simp only [finish, newState, gt_iff_lt, List.length_pos, ne_eq]

/-! ### Claims about `score`, `finish` and `compareState` -/

/-- C1: in character-unit mode, for a token whose entry has a non-zero
vocabulary index `idx`, `score` makes one `BaseScore(s.state, idx)` call,
returns its score divided once by `NUM_FLT_LOGE`, and returns a state whose
model context is the out-state written by that call and whose token buffer is
empty. -/
theorem score_char_in_vocabulary (lm : KenLM Ctx F) (s : KenLMState Ctx) (token : Int)
    (hc : lm.unit = LMUnit.Char)
    (hidx : lm.model.Index (lm.tokenizer.getEntry token) ≠ 0) :
    (lm.score s token).delta =
        lm.fl.div (lm.model.BaseScore s.state
          (lm.model.Index (lm.tokenizer.getEntry token))).1 lm.fl.NUM_FLT_LOGE ∧
      (lm.score s token).out.state =
        (lm.model.BaseScore s.state (lm.model.Index (lm.tokenizer.getEntry token))).2 ∧
      (lm.score s token).out.tokens = [] ∧
      (lm.score s token).calls =
        [Call.Index (lm.tokenizer.getEntry token),
         Call.BaseScore s.state (lm.model.Index (lm.tokenizer.getEntry token))] := by
  simp [score, hc, hidx, newState]

/-- C2: in word-unit mode, for a token different from the space index, `score`
returns the sentinel `1` and a state with the context of `s` and the buffer of
`s` extended by the token at the end; the input state is left as it was and no
call into the n-gram model is made. -/
theorem score_word_defers_until_space (lm : KenLM Ctx F) (s : KenLMState Ctx)
    (token_index : Int) (hw : lm.unit = LMUnit.Word)
    (ht : token_index ≠ lm.tokenizer.getSpaceIndex) :
    (lm.score s token_index).delta = lm.fl.one ∧
      (lm.score s token_index).out.state = s.state ∧
      (lm.score s token_index).out.tokens = s.tokens ++ [token_index] ∧
      (lm.score s token_index).inState = s ∧
      (lm.score s token_index).calls = [] := by
  simp [score, hw, ht]

/-- C5 (as amended): `compareState` is `0` exactly when the model's state
comparison says the two contexts are equal (`operator==` holds or `Compare`
returns `0`); when `operator==` fails the result is the value of `Compare`; the
token buffers play no part in the result; and, `operator==` being reflexive,
`compareState(s, s)` is `0`. -/
theorem compareState_delegates (lm : KenLM Ctx F)
    (hrefl : ∀ c, lm.model.stateEq c c = true) (s1 s2 : KenLMState Ctx) :
    (lm.compareState s1 s2 = 0 ↔
        (lm.model.stateEq s1.state s2.state = true ∨
          lm.model.stateCompare s1.state s2.state = 0)) ∧
      (lm.model.stateEq s1.state s2.state = false →
        lm.compareState s1 s2 = lm.model.stateCompare s1.state s2.state) ∧
      (∀ b1 b2 : List Int,
        lm.compareState { state := s1.state, tokens := b1 } { state := s2.state, tokens := b2 }
          = lm.compareState s1 s2) ∧
      (∀ b1 b2 : List Int,
        lm.compareState { state := s1.state, tokens := b1 } { state := s1.state, tokens := b2 }
          = 0) ∧
      lm.compareState s1 s1 = 0 := by
  refine ⟨?_, ?_, ?_, ?_, ?_⟩
  · unfold compareState
    cases h : lm.model.stateEq s1.state s2.state <;> simp
  · intro h
    simp [compareState, h]
  · intro b1 b2
    rfl
  · intro b1 b2
    simp [compareState, hrefl]
  · simp [compareState, hrefl]

/-- C9 (as amended): for a token sequence scored left to right in word-unit
mode, the n-gram model is consulted exactly at the tokens equal to the space
index; `finish` always ends with the `BaseScore` call for the end of sentence;
the buffer left for `finish` is the part of the sequence after its last space;
`finish` looks up a word only when that buffer is non-empty, and with an empty
buffer its only call is the end-of-sentence `BaseScore`. -/
theorem word_mode_consultations (lm : KenLM Ctx F) (hw : lm.unit = LMUnit.Word)
    (s : KenLMState Ctx) (ts : List Int) :
    (∀ (i : Nat) (t : Int), ts[i]? = some t →
        ∃ log : List (Call Ctx), (lm.scoreAll s ts).2[i]? = some log ∧
          (log ≠ [] ↔ t = lm.tokenizer.getSpaceIndex)) ∧
      (∃ ctx, (lm.finish (lm.scoreAll s ts).1).calls.getLast? =
          some (Call.BaseScore ctx lm.model.EndSentence)) ∧
      (∀ pre w : List Int, ts = pre ++ lm.tokenizer.getSpaceIndex :: w →
          (∀ t ∈ w, t ≠ lm.tokenizer.getSpaceIndex) → (lm.scoreAll s ts).1.tokens = w) ∧
      ((lm.scoreAll s ts).1.tokens ≠ [] →
          (lm.finish (lm.scoreAll s ts).1).calls.head? =
            some (Call.Index (String.join
              ((lm.scoreAll s ts).1.tokens.map lm.tokenizer.getEntry)))) ∧
      ((lm.scoreAll s ts).1.tokens = [] →
          (lm.finish (lm.scoreAll s ts).1).calls =
            [Call.BaseScore (lm.scoreAll s ts).1.state lm.model.EndSentence]) := by
  refine ⟨scoreAll_logs lm hw s ts, ?_, ?_, ?_, ?_⟩
  · rw [finish_eq]
    split
    · exact ⟨(lm.score (lm.scoreAll s ts).1 lm.tokenizer.getSpaceIndex).out.state, by simp⟩
    · exact ⟨(lm.scoreAll s ts).1.state, by simp⟩
  · intro pre w hts hwd
    subst hts
    rw [scoreAll_append]
    simp only [scoreAll]
    rw [scoreAll_no_space lm hw _ w hwd]
    simp [score_word_space_tokens lm _ hw]
  · intro hne
    rw [finish_eq, if_pos ⟨hw, hne⟩, score_word_space lm _ hw]
    split <;> simp
  · intro he
    rw [finish_eq, if_neg (by simp [he])]

/-- C10: in word-unit mode, from a state with an empty buffer, scoring the
tokens of `ts` (none of them the space) makes no call into the model, and the
following `score` of the space index looks up exactly the concatenation of the
entries of `ts`; when its index `idx` is non-zero the result is
`BaseScore(s.state, idx) / NUM_FLT_LOGE` with a state whose context is the
out-state of that call and whose buffer is empty. -/
theorem word_buffering_scores_assembled_word (lm : KenLM Ctx F) (hw : lm.unit = LMUnit.Word)
    (s : KenLMState Ctx) (hs : s.tokens = []) (ts : List Int)
    (hts : ∀ t ∈ ts, t ≠ lm.tokenizer.getSpaceIndex) :
    (lm.scoreAll s ts).2 = List.replicate ts.length [] ∧
      (lm.score (lm.scoreAll s ts).1 lm.tokenizer.getSpaceIndex).calls.head? =
        some (Call.Index (String.join (ts.map lm.tokenizer.getEntry))) ∧
      (∀ e, Call.Index e ∈ (lm.score (lm.scoreAll s ts).1 lm.tokenizer.getSpaceIndex).calls →
        e = String.join (ts.map lm.tokenizer.getEntry)) ∧
      (lm.model.Index (String.join (ts.map lm.tokenizer.getEntry)) ≠ 0 →
        (lm.score (lm.scoreAll s ts).1 lm.tokenizer.getSpaceIndex).delta =
            lm.fl.div (lm.model.BaseScore s.state
              (lm.model.Index (String.join (ts.map lm.tokenizer.getEntry)))).1
              lm.fl.NUM_FLT_LOGE ∧
          (lm.score (lm.scoreAll s ts).1 lm.tokenizer.getSpaceIndex).out =
            { state := (lm.model.BaseScore s.state
                (lm.model.Index (String.join (ts.map lm.tokenizer.getEntry)))).2,
              tokens := [] } ∧
          (lm.score (lm.scoreAll s ts).1 lm.tokenizer.getSpaceIndex).calls =
            [Call.Index (String.join (ts.map lm.tokenizer.getEntry)),
             Call.BaseScore s.state
               (lm.model.Index (String.join (ts.map lm.tokenizer.getEntry)))]) := by
  rw [scoreAll_no_space lm hw s ts hts, score_word_space lm _ hw]
  simp only [hs, List.nil_append]
  refine ⟨trivial, ?_, ?_, ?_⟩
  · split <;> simp
  · intro e he
    split at he <;> simpa using he
  · intro hidx
    simp [hidx]

/-! ### Runs on the demo model -/

/-- The character-mode theorem at the begin-of-sentence state and the token `2`
(entry `"a"`, vocabulary index `1`). -/
theorem score_char_in_vocabulary_witness :
    Demo.charLM.unit = LMUnit.Char ∧
      Demo.charLM.model.Index (Demo.charLM.tokenizer.getEntry 2) ≠ 0 ∧
      (Demo.charLM.score (Demo.charLM.start false) 2).delta =
        Demo.charLM.fl.div (Demo.charLM.model.BaseScore (Demo.charLM.start false).state
          (Demo.charLM.model.Index (Demo.charLM.tokenizer.getEntry 2))).1
          Demo.charLM.fl.NUM_FLT_LOGE ∧
      (Demo.charLM.score (Demo.charLM.start false) 2).out.state =
        (Demo.charLM.model.BaseScore (Demo.charLM.start false).state
          (Demo.charLM.model.Index (Demo.charLM.tokenizer.getEntry 2))).2 ∧
      (Demo.charLM.score (Demo.charLM.start false) 2).out.tokens = [] ∧
      (Demo.charLM.score (Demo.charLM.start false) 2).calls =
        [Call.Index (Demo.charLM.tokenizer.getEntry 2),
         Call.BaseScore (Demo.charLM.start false).state
          (Demo.charLM.model.Index (Demo.charLM.tokenizer.getEntry 2))] :=
  ⟨by decide, by decide,
    score_char_in_vocabulary Demo.charLM (Demo.charLM.start false) 2 (by decide) (by decide)⟩

/-- The deferral theorem at the begin-of-sentence state and the token `2`. -/
theorem score_word_defers_until_space_witness :
    Demo.wordLM.unit = LMUnit.Word ∧ (2 : Int) ≠ Demo.wordLM.tokenizer.getSpaceIndex ∧
      (Demo.wordLM.score (Demo.wordLM.start false) 2).delta = Demo.wordLM.fl.one ∧
      (Demo.wordLM.score (Demo.wordLM.start false) 2).out.state =
        (Demo.wordLM.start false).state ∧
      (Demo.wordLM.score (Demo.wordLM.start false) 2).out.tokens =
        (Demo.wordLM.start false).tokens ++ [2] ∧
      (Demo.wordLM.score (Demo.wordLM.start false) 2).inState = Demo.wordLM.start false ∧
      (Demo.wordLM.score (Demo.wordLM.start false) 2).calls = [] :=
  ⟨by decide, by decide,
    score_word_defers_until_space Demo.wordLM (Demo.wordLM.start false) 2 (by decide)
      (by decide)⟩

/-- C3: the run of `score` on an out-of-vocabulary token. In character mode,
from the begin-of-sentence state (context `[8]`), the token `4` (entry `"c"`,
vocabulary index `0`) gets `OOV_SCORE`, but the returned state carries the
context of a freshly made `KenLMState` (`[]`), not the context of the input
state; the same happens in word mode when the buffered word `"b"` is flushed
by the space. -/
theorem score_oov_returns_default_context :
    Demo.charLM.model.Index (Demo.charLM.tokenizer.getEntry 4) = 0 ∧
      (Demo.charLM.start false).state = [8] ∧
      (Demo.charLM.score (Demo.charLM.start false) 4).delta = Demo.charLM.fl.OOV_SCORE ∧
      (Demo.charLM.score (Demo.charLM.start false) 4).out.state = Demo.charLM.defaultState ∧
      (Demo.charLM.score (Demo.charLM.start false) 4).out.state ≠
        (Demo.charLM.start false).state ∧
      (Demo.wordLM.score { state := [8], tokens := [3] } 1).delta = Demo.wordLM.fl.OOV_SCORE ∧
      (Demo.wordLM.score { state := [8], tokens := [3] } 1).out.state ≠ [8] := by
  decide

/-- C4: the run of `finish` in word mode on the state reached from the
begin-of-sentence state by scoring the token `2` (buffer `[2]`, word `"a"`).
The flush returns `w = -2 / NUM_FLT_LOGE`, already in natural log, the
end-of-sentence `BaseScore` returns `-11`, and `finish` returns
`(0 + w + -11) / NUM_FLT_LOGE`: the flushed word's score is divided by
`NUM_FLT_LOGE` a second time, so the result differs from
`w + -11 / NUM_FLT_LOGE`. -/
theorem finish_divides_flushed_score_twice :
    (Demo.wordLM.score (Demo.wordLM.start false) 2).out = { state := [8], tokens := [2] } ∧
      (Demo.wordLM.score { state := [8], tokens := [2] } 1).delta =
        -2 / (4342944819 / 10000000000) ∧
      (Demo.wordLM.model.BaseScore
        (Demo.wordLM.score { state := [8], tokens := [2] } 1).out.state
        Demo.wordLM.model.EndSentence).1 = -11 ∧
      (Demo.wordLM.finish { state := [8], tokens := [2] }).delta =
        (0 + -2 / (4342944819 / 10000000000) + -11) / (4342944819 / 10000000000) ∧
      (Demo.wordLM.finish { state := [8], tokens := [2] }).delta ≠
        (Demo.wordLM.score { state := [8], tokens := [2] } 1).delta +
          (Demo.wordLM.model.BaseScore
            (Demo.wordLM.score { state := [8], tokens := [2] } 1).out.state
            Demo.wordLM.model.EndSentence).1 / (4342944819 / 10000000000) := by
  refine ⟨by decide, ?_, ?_, ?_, ?_⟩ <;>
    norm_num [KenLM.finish, KenLM.score, Demo.wordLM, Demo.model, Demo.fl, Demo.tokenizer,
      Demo.getEntry, Demo.Index, KenLM.newState, Tokenizer.mapIndicesToEntries]

/-- C5, counterexample: two states with the same model context and different
buffered tokens compare as `0`, although the following `score` of the space
index returns different results from them. -/
theorem compareState_ignores_buffer :
    Demo.wordLM.compareState { state := [8], tokens := [2] } { state := [8], tokens := [3] } = 0 ∧
      ({ state := [8], tokens := [2] } : KenLMState (List Nat)).tokens ≠
        ({ state := [8], tokens := [3] } : KenLMState (List Nat)).tokens ∧
      (Demo.wordLM.score { state := [8], tokens := [2] } 1).out ≠
        (Demo.wordLM.score { state := [8], tokens := [3] } 1).out ∧
      (Demo.wordLM.score { state := [8], tokens := [2] } 1).calls ≠
        (Demo.wordLM.score { state := [8], tokens := [3] } 1).calls := by
  decide

/-- The comparison theorem on the demo model, whose `operator==` is equality
of contexts. -/
theorem compareState_delegates_witness :
    (∀ c, Demo.wordLM.model.stateEq c c = true) ∧
      Demo.wordLM.compareState { state := [8], tokens := [2] }
        { state := [8], tokens := [2] } = 0 :=
  ⟨by simp [Demo.wordLM, Demo.model],
    (compareState_delegates Demo.wordLM (by simp [Demo.wordLM, Demo.model])
      { state := [8], tokens := [2] } { state := [8], tokens := [2] }).2.2.2.2⟩

/-- C9, counterexample: with `space_index = 1` and the tokens
`[2, 3, 1, 4, 5, 1]`, the model is consulted at the two tokens equal to `1`,
and the word `[4, 5]` (`"cd"`) is looked up at the last of them; the state
handed to `finish` has an empty buffer and `finish` makes the end-of-sentence
`BaseScore` call only: it looks up no word. -/
theorem finish_after_trailing_space_flushes_nothing :
    (Demo.wordLM.scoreAll (Demo.wordLM.start false) [2, 3, 1, 4, 5, 1]).2 =
        [[], [], [Call.Index "ab", Call.BaseScore [8] 2], [], [],
         [Call.Index "cd", Call.BaseScore [2, 8] 3]] ∧
      (Demo.wordLM.scoreAll (Demo.wordLM.start false) [2, 3, 1, 4, 5, 1]).1 =
        { state := [3, 2], tokens := [] } ∧
      (Demo.wordLM.finish
        (Demo.wordLM.scoreAll (Demo.wordLM.start false) [2, 3, 1, 4, 5, 1]).1).calls =
        [Call.BaseScore [3, 2] 9] ∧
      ¬ (∃ e, Call.Index e ∈ (Demo.wordLM.finish
        (Demo.wordLM.scoreAll (Demo.wordLM.start false) [2, 3, 1, 4, 5, 1]).1).calls) := by
  have h : (Demo.wordLM.finish
      (Demo.wordLM.scoreAll (Demo.wordLM.start false) [2, 3, 1, 4, 5, 1]).1).calls =
      [Call.BaseScore [3, 2] 9] := by decide
  refine ⟨by decide, by decide, h, ?_⟩
  rw [h]
  simp

/-- The consultation theorem at the tokens `[2, 3, 1, 4, 5, 1]` and
`[2, 3, 1, 4, 5]`: the buffer left for `finish` is empty in the first case and
`[4, 5]` in the second. -/
theorem word_mode_consultations_witness :
    Demo.wordLM.unit = LMUnit.Word ∧
      (Demo.wordLM.scoreAll (Demo.wordLM.start false) [2, 3, 1, 4, 5, 1]).1.tokens = [] ∧
      (Demo.wordLM.scoreAll (Demo.wordLM.start false) [2, 3, 1, 4, 5]).1.tokens = [4, 5] :=
  ⟨by decide,
    (word_mode_consultations Demo.wordLM (by decide) (Demo.wordLM.start false)
      [2, 3, 1, 4, 5, 1]).2.2.1 [2, 3, 1, 4, 5] [] (by decide) (by simp),
    (word_mode_consultations Demo.wordLM (by decide) (Demo.wordLM.start false)
      [2, 3, 1, 4, 5]).2.2.1 [2, 3] [4, 5] (by decide) (by decide)⟩

/-- The buffering theorem at the tokens `[2, 3]`: the space looks up the
concatenation of their entries. -/
theorem word_buffering_scores_assembled_word_witness :
    Demo.wordLM.unit = LMUnit.Word ∧ (Demo.wordLM.start false).tokens = [] ∧
      (∀ t ∈ ([2, 3] : List Int), t ≠ Demo.wordLM.tokenizer.getSpaceIndex) ∧
      (Demo.wordLM.score (Demo.wordLM.scoreAll (Demo.wordLM.start false) [2, 3]).1
        Demo.wordLM.tokenizer.getSpaceIndex).calls.head? =
        some (Call.Index (String.join (([2, 3] : List Int).map Demo.wordLM.tokenizer.getEntry))) :=
  ⟨by decide, by decide, by decide,
    (word_buffering_scores_assembled_word Demo.wordLM (by decide) (Demo.wordLM.start false)
      (by decide) [2, 3] (by decide)).2.1⟩

end KenLM

/-! ## Theorems about `binding.cpp` -/

section Binding

variable {F D L : Type}

/-- The token loop, started at `t` with `n` iterations left and all indices
in range, succeeds and writes exactly the cells `t .. t + n - 1` of row `(b, p)` of
`output` and `timesteps`. -/
theorem tokenLoop_spec (b p : Nat) (out : Output F) (B P M : Nat) (hb : b < B) (hp : p < P) :
    ∀ (n t : Nat) (T : Tensors F), T.HasShape B P M → t + n ≤ M →
      t + n ≤ out.tokens.length → t + n ≤ out.timesteps.length →
      ∃ T', tokenLoop b p out n t T = some T' ∧ T'.HasShape B P M ∧
        T'.scores = T.scores ∧ T'.output_length = T.output_length ∧
        (∀ x y z, T'.output.data x y z =
          if x = b ∧ y = p ∧ t ≤ z ∧ z < t + n then out.tokens.getD z 0
          else T.output.data x y z) ∧
        (∀ x y z, T'.timesteps.data x y z =
          if x = b ∧ y = p ∧ t ≤ z ∧ z < t + n then out.timesteps.getD z 0
          else T.timesteps.data x y z) := by
  intro n
  induction n with
  | zero =>
    intro t T hs _ _ _
    exact ⟨T, rfl, hs, rfl, rfl, by intro x y z; simp; omega, by intro x y z; simp; omega⟩
  | succ n ih =>
    intro t T hs hM htok hts
    obtain ⟨h1, h2, h3, h4, h5, h6, h7, h8, h9, h10⟩ := hs
    have ht1 : t < out.tokens.length := by omega
    have ht2 : t < out.timesteps.length := by omega
    have hset1 : T.output.set b p t out.tokens[t] = some { T.output with data := fun x y z => if x = b ∧ y = p ∧ z = t then out.tokens[t] else T.output.data x y z } := by
      simp [Tensor3.set, h1, h2, h3, hb, hp]; omega
    have hset2 : T.timesteps.set b p t out.timesteps[t] = some { T.timesteps with data := fun x y z => if x = b ∧ y = p ∧ z = t then out.timesteps[t] else T.timesteps.data x y z } := by
      simp [Tensor3.set, h4, h5, h6, hb, hp]; omega
    obtain ⟨T', hT', hs', hsc, hol, hout, htm⟩ := ih (t + 1)
      { T with output := { T.output with data := fun x y z => if x = b ∧ y = p ∧ z = t then out.tokens[t] else T.output.data x y z },
               timesteps := { T.timesteps with data := fun x y z => if x = b ∧ y = p ∧ z = t then out.timesteps[t] else T.timesteps.data x y z } }
      ⟨h1, h2, h3, h4, h5, h6, h7, h8, h9, h10⟩ (by omega) (by omega) (by omega)
    refine ⟨T', ?_, hs', hsc, hol, ?_, ?_⟩
    · simp only [tokenLoop, List.getElem?_eq_getElem ht1, List.getElem?_eq_getElem ht2,
        Option.bind_eq_bind, Option.some_bind, hset1, hset2]
      exact hT'
    · intro x y z
      rw [hout x y z]
      by_cases hz : z = t
      · subst hz
        simp [List.getD_eq_getElem?_getD, List.getElem?_eq_getElem ht1]
      · by_cases hc : x = b ∧ y = p ∧ t ≤ z ∧ z < t + (n + 1)
        · have hc' : x = b ∧ y = p ∧ t + 1 ≤ z ∧ z < t + 1 + n := by omega
          simp [hc, hc']
        · have hc' : ¬ (x = b ∧ y = p ∧ t + 1 ≤ z ∧ z < t + 1 + n) := by omega
          simp only [hc, hc', if_false]
          simp [hz]
    · intro x y z
      rw [htm x y z]
      by_cases hz : z = t
      · subst hz
        simp [List.getD_eq_getElem?_getD, List.getElem?_eq_getElem ht2]
      · by_cases hc : x = b ∧ y = p ∧ t ≤ z ∧ z < t + (n + 1)
        · have hc' : x = b ∧ y = p ∧ t + 1 ≤ z ∧ z < t + 1 + n := by omega
          simp [hc, hc']
        · have hc' : ¬ (x = b ∧ y = p ∧ t + 1 ≤ z ∧ z < t + 1 + n) := by omega
          simp only [hc, hc', if_false]
          simp [hz]

/-- The hypothesis loop, started at `p` with `n` iterations left and all
indices in range, succeeds; it writes the rows `p .. p + n - 1` of batch entry `b`
and leaves every other cell as it was. -/
theorem hypLoop_spec (b : Nat) (results : List (Output F)) (B P M : Nat) (hb : b < B)
    (hres : ∀ o ∈ results, o.tokens.length ≤ M ∧ o.tokens.length ≤ o.timesteps.length) :
    ∀ (n p : Nat) (T : Tensors F), T.HasShape B P M → p + n ≤ P → p + n ≤ results.length →
      ∃ T', hypLoop b results n p T = some T' ∧ T'.HasShape B P M ∧
        (∀ x y, ¬ (x = b ∧ p ≤ y ∧ y < p + n) →
          (∀ z, T'.output.data x y z = T.output.data x y z) ∧
          (∀ z, T'.timesteps.data x y z = T.timesteps.data x y z) ∧
          T'.scores.data x y = T.scores.data x y ∧
          T'.output_length.data x y = T.output_length.data x y) ∧
        (∀ y o, p ≤ y → y < p + n → results[y]? = some o →
          (∀ z, T'.output.data b y z =
            if z < o.tokens.length then o.tokens.getD z 0 else T.output.data b y z) ∧
          (∀ z, T'.timesteps.data b y z =
            if z < o.tokens.length then o.timesteps.getD z 0 else T.timesteps.data b y z) ∧
          T'.scores.data b y = o.probability ∧
          T'.output_length.data b y = toInt32 o.tokens.length) := by
  intro n
  induction n with
  | zero =>
    intro p T hs _ _
    refine ⟨T, rfl, hs, ?_, ?_⟩
    · intro x y _
      exact ⟨fun _ => rfl, fun _ => rfl, rfl, rfl⟩
    · intro y o h1 h2
      omega
  | succ n ih =>
    intro p T hs hP hlen
    have hp : p < results.length := by omega
    have hmem : results[p] ∈ results := List.getElem_mem hp
    obtain ⟨hM1, hM2⟩ := hres _ hmem
    obtain ⟨T1, hT1, hs1, hsc1, hol1, hout1, htm1⟩ :=
      tokenLoop_spec b p results[p] B P M hb (by omega) results[p].tokens.length 0 T hs
        (by omega) (by omega) (by omega)
    obtain ⟨h1, h2, h3, h4, h5, h6, h7, h8, h9, h10⟩ := hs1
    have hset1 : T1.scores.set b p results[p].probability =
        some { T1.scores with data := (fun x y =>
          if x = b ∧ y = p then results[p].probability else T1.scores.data x y) } := by
      simp [Tensor2.set, h7, h8, hb]; omega
    have hset2 : T1.output_length.set b p (toInt32 results[p].tokens.length) =
        some { T1.output_length with data := (fun x y =>
          if x = b ∧ y = p then toInt32 (results[p].tokens.length : Int)
          else T1.output_length.data x y) } := by
      simp [Tensor2.set, h9, h10, hb]; omega
    obtain ⟨T', hT', hs', hframe, hrows⟩ := ih (p + 1)
      { T1 with
        scores := { T1.scores with data := (fun x y =>
          if x = b ∧ y = p then results[p].probability else T1.scores.data x y) },
        output_length := { T1.output_length with data := (fun x y =>
          if x = b ∧ y = p then toInt32 (results[p].tokens.length : Int)
          else T1.output_length.data x y) } }
      ⟨h1, h2, h3, h4, h5, h6, h7, h8, h9, h10⟩ (by omega) (by omega)
    refine ⟨T', ?_, hs', ?_, ?_⟩
    · simp only [hypLoop, List.getElem?_eq_getElem hp, Option.bind_eq_bind, Option.some_bind,
        hT1, hset1, hset2]
      exact hT'
    · intro x y hxy
      have hxy' : ¬ (x = b ∧ p + 1 ≤ y ∧ y < p + 1 + n) := by omega
      have hxy0 : ¬ (x = b ∧ y = p) := by omega
      obtain ⟨f1, f2, f3, f4⟩ := hframe x y hxy'
      refine ⟨?_, ?_, ?_, ?_⟩
      · intro z
        rw [f1 z]
        simp only []
        rw [hout1 x y z]
        have : ¬ (x = b ∧ y = p ∧ 0 ≤ z ∧ z < 0 + results[p].tokens.length) := by omega
        simp only [this, if_false]
      · intro z
        rw [f2 z]
        simp only []
        rw [htm1 x y z]
        have : ¬ (x = b ∧ y = p ∧ 0 ≤ z ∧ z < 0 + results[p].tokens.length) := by omega
        simp only [this, if_false]
      · rw [f3]
        simp only [hxy0, if_false, hsc1]
      · rw [f4]
        simp only [hxy0, if_false, hol1]
    · intro y o hy1 hy2 hyo
      by_cases hyp : y = p
      · subst hyp
        rw [List.getElem?_eq_getElem hp] at hyo
        simp only [Option.some.injEq] at hyo
        subst hyo
        have hnot : ¬ (b = b ∧ y + 1 ≤ y ∧ y < y + 1 + n) := by omega
        obtain ⟨f1, f2, f3, f4⟩ := hframe b y hnot
        refine ⟨?_, ?_, ?_, ?_⟩
        · intro z
          rw [f1 z]
          simp only []
          rw [hout1 b y z]
          by_cases hz : z < results[y].tokens.length
          · have : b = b ∧ y = y ∧ 0 ≤ z ∧ z < 0 + results[y].tokens.length := by omega
            simp only [this, hz, if_true, and_self]
          · simp [hz]
        · intro z
          rw [f2 z]
          simp only []
          rw [htm1 b y z]
          by_cases hz : z < results[y].tokens.length
          · have : b = b ∧ y = y ∧ 0 ≤ z ∧ z < 0 + results[y].tokens.length := by omega
            simp only [this, hz, if_true, and_self]
          · simp [hz]
        · rw [f3]
          simp
        · rw [f4]
          simp
      · obtain ⟨r1, r2, r3, r4⟩ := hrows y o (by omega) (by omega) hyo
        refine ⟨?_, ?_, r3, r4⟩
        · intro z
          rw [r1 z]
          simp only []
          rw [hout1 b y z]
          simp [hyp]
        · intro z
          rw [r2 z]
          simp only []
          rw [htm1 b y z]
          simp [hyp]

/-- The batch loop, started at `b` with `n` iterations left and all indices
in range, succeeds; it writes the rows of the hypotheses of the entries
`b .. b + n - 1` and leaves every other cell as it was. -/
theorem batchLoop_spec (batch_results : List (List (Output F))) (B P M : Nat)
    (hP : ∀ r ∈ batch_results, r.length ≤ P)
    (hres : ∀ r ∈ batch_results, ∀ o ∈ r,
      o.tokens.length ≤ M ∧ o.tokens.length ≤ o.timesteps.length) :
    ∀ (n b : Nat) (T : Tensors F), T.HasShape B P M → b + n ≤ B →
      b + n ≤ batch_results.length →
      ∃ T', batchLoop batch_results n b T = some T' ∧ T'.HasShape B P M ∧
        (∀ x y, ¬ (b ≤ x ∧ x < b + n) →
          (∀ z, T'.output.data x y z = T.output.data x y z) ∧
          (∀ z, T'.timesteps.data x y z = T.timesteps.data x y z) ∧
          T'.scores.data x y = T.scores.data x y ∧
          T'.output_length.data x y = T.output_length.data x y) ∧
        (∀ x r, b ≤ x → x < b + n → batch_results[x]? = some r →
          (∀ y, r.length ≤ y →
            (∀ z, T'.output.data x y z = T.output.data x y z) ∧
            (∀ z, T'.timesteps.data x y z = T.timesteps.data x y z) ∧
            T'.scores.data x y = T.scores.data x y ∧
            T'.output_length.data x y = T.output_length.data x y) ∧
          (∀ y o, r[y]? = some o →
            (∀ z, T'.output.data x y z =
              if z < o.tokens.length then o.tokens.getD z 0 else T.output.data x y z) ∧
            (∀ z, T'.timesteps.data x y z =
              if z < o.tokens.length then o.timesteps.getD z 0 else T.timesteps.data x y z) ∧
            T'.scores.data x y = o.probability ∧
            T'.output_length.data x y = toInt32 o.tokens.length)) := by
  intro n
  induction n with
  | zero =>
    intro b T hs _ _
    refine ⟨T, rfl, hs, ?_, ?_⟩
    · intro x y _
      exact ⟨fun _ => rfl, fun _ => rfl, rfl, rfl⟩
    · intro x r h1 h2
      omega
  | succ n ih =>
    intro b T hs hB hlen
    have hb : b < batch_results.length := by omega
    have hmem : batch_results[b] ∈ batch_results := List.getElem_mem hb
    obtain ⟨T1, hT1, hs1, hframe1, hrows1⟩ :=
      hypLoop_spec b batch_results[b] B P M (by omega) (hres _ hmem)
        batch_results[b].length 0 T hs (by have := hP _ hmem; omega) (by omega)
    obtain ⟨T', hT', hs', hframe, hrows⟩ := ih (b + 1) T1 hs1 (by omega) (by omega)
    refine ⟨T', ?_, hs', ?_, ?_⟩
    · simp only [batchLoop, List.getElem?_eq_getElem hb, Option.bind_eq_bind, Option.some_bind,
        hT1]
      exact hT'
    · intro x y hx
      obtain ⟨f1, f2, f3, f4⟩ := hframe x y (by omega)
      obtain ⟨g1, g2, g3, g4⟩ := hframe1 x y (by omega)
      exact ⟨fun z => (f1 z).trans (g1 z), fun z => (f2 z).trans (g2 z), f3.trans g3,
        f4.trans g4⟩
    · intro x r hx1 hx2 hxr
      by_cases hxb : x = b
      · subst hxb
        rw [List.getElem?_eq_getElem hb] at hxr
        simp only [Option.some.injEq] at hxr
        subst hxr
        constructor
        · intro y hy
          obtain ⟨f1, f2, f3, f4⟩ := hframe x y (by omega)
          obtain ⟨g1, g2, g3, g4⟩ := hframe1 x y (by omega)
          exact ⟨fun z => (f1 z).trans (g1 z), fun z => (f2 z).trans (g2 z), f3.trans g3,
            f4.trans g4⟩
        · intro y o hyo
          have hy : y < batch_results[x].length := by
            rcases Nat.lt_or_ge y batch_results[x].length with h | h
            · exact h
            · rw [List.getElem?_eq_none h] at hyo
              cases hyo
          obtain ⟨f1, f2, f3, f4⟩ := hframe x y (by omega)
          obtain ⟨g1, g2, g3, g4⟩ := hrows1 y o (by omega) (by omega) hyo
          exact ⟨fun z => (f1 z).trans (g1 z), fun z => (f2 z).trans (g2 z), f3.trans g3,
            f4.trans g4⟩
      · obtain ⟨ra, rb⟩ := hrows x r (by omega) (by omega) hxr
        constructor
        · intro y hy
          obtain ⟨f1, f2, f3, f4⟩ := ra y hy
          obtain ⟨g1, g2, g3, g4⟩ := hframe1 x y (by omega)
          exact ⟨fun z => (f1 z).trans (g1 z), fun z => (f2 z).trans (g2 z), f3.trans g3,
            f4.trans g4⟩
        · intro y o hyo
          obtain ⟨f1, f2, f3, f4⟩ := rb y o hyo
          obtain ⟨g1, g2, g3, g4⟩ := hframe1 x y (by omega)
          refine ⟨fun z => ?_, fun z => ?_, f3, f4⟩
          · rw [f1 z, g1 z]
          · rw [f2 z, g2 z]

/-- A size below `2 ^ 31` is unchanged by the conversion to `int32_t`. -/
theorem toInt32_of_lt (n : Nat) (h : n < 2 ^ 31) : toInt32 (n : Int) = (n : Int) := by
  unfold toInt32 Int.bmod
  have h1 : ((n : Int) % (2 : Int) ^ 32) = (n : Int) := by
    apply Int.emod_eq_of_lt <;> omega
  simp only [h1]
  norm_num
  omega

/-- With contiguous inputs of the expected ranks, `beam_decoder` is the decoder
call followed by the packing of its results. -/
theorem beam_decoder_eq (log : D → D)
    (decoder : DecoderArgs F D L → Outcome (List (List (Output F)))) (u : Uninit F)
    (log_probs : InTensor F) (seq_lengths : InTensor Int)
    (blank_id beam_size num_processes : Int) (cutoff_prob : D) (cutoff_top_n : Int)
    (scorer : L) (B M C S : Nat)
    (hc1 : log_probs.is_contiguous = true) (hc2 : seq_lengths.is_contiguous = true)
    (hlp : log_probs.sizes = [B, M, C]) (hsl : seq_lengths.sizes = [S]) :
    beam_decoder log decoder u log_probs seq_lengths blank_id beam_size num_processes
        cutoff_prob cutoff_top_n scorer =
      match decoder (decoderArgs log log_probs seq_lengths B M C S blank_id beam_size
          num_processes cutoff_prob cutoff_top_n scorer) with
      | Outcome.ok batch_results => packResults u B beam_size M batch_results
      | Outcome.error msg => Outcome.error msg
      | Outcome.undefined => Outcome.undefined := by
  simp [beam_decoder, hc1, hc2, InTensor.size, hlp, hsl]

/-- Under the bounds on the decoder's results, the packing succeeds, and every
cell of the four tensors is either the value of the hypothesis it belongs to
or the content the memory had before. -/
theorem packResults_ok (u : Uninit F) (B : Nat) (beam_size : Int) (M : Nat)
    (batch_results : List (List (Output F))) (hbeam : 0 ≤ beam_size)
    (hB : batch_results.length ≤ B)
    (hP : ∀ r ∈ batch_results, r.length ≤ beam_size.toNat)
    (hres : ∀ r ∈ batch_results, ∀ o ∈ r,
      o.tokens.length ≤ M ∧ o.tokens.length ≤ o.timesteps.length) :
    ∃ T : Tensors F,
      packResults u B beam_size M batch_results =
        Outcome.ok (T.output, T.scores, T.timesteps, T.output_length) ∧
      T.HasShape B beam_size.toNat M ∧
      (∀ x y, (∀ r, batch_results[x]? = some r → r.length ≤ y) →
        (∀ z, T.output.data x y z = u.output x y z) ∧
        (∀ z, T.timesteps.data x y z = u.timesteps x y z) ∧
        T.scores.data x y = u.scores x y ∧
        T.output_length.data x y = u.output_length x y) ∧
      (∀ x r y o, batch_results[x]? = some r → r[y]? = some o →
        (∀ z, T.output.data x y z =
          if z < o.tokens.length then o.tokens.getD z 0 else u.output x y z) ∧
        (∀ z, T.timesteps.data x y z =
          if z < o.tokens.length then o.timesteps.getD z 0 else u.timesteps x y z) ∧
        T.scores.data x y = o.probability ∧
        T.output_length.data x y = toInt32 o.tokens.length) := by
  have hshape : (Tensors.empty u B beam_size.toNat M).HasShape B beam_size.toNat M := by
    simp [Tensors.empty, Tensors.HasShape]
  obtain ⟨T, hT, hs, hframe, hrows⟩ :=
    batchLoop_spec batch_results B beam_size.toNat M hP hres batch_results.length 0
      (Tensors.empty u B beam_size.toNat M) hshape (by omega) (by omega)
  refine ⟨T, ?_, hs, ?_, ?_⟩
  · simp [packResults, Int.not_lt.mpr hbeam, hT]
  · intro x y hxy
    rcases Nat.lt_or_ge x batch_results.length with hx | hx
    · exact (hrows x batch_results[x] (by omega) (by omega)
        (List.getElem?_eq_getElem hx)).1 y (hxy _ (List.getElem?_eq_getElem hx))
    · exact hframe x y (by omega)
  · intro x r y o hxr hyo
    have hx : x < batch_results.length := by
      rcases Nat.lt_or_ge x batch_results.length with h | h
      · exact h
      · rw [List.getElem?_eq_none h] at hxr
        cases hxr
    exact (hrows x r (by omega) (by omega) hxr).2 y o hyo

/-! ### Claims about `beam_decoder` -/

/-- C6: when the decoder, called on contiguous inputs, returns `batch_results`
with at most `B` entries, at most `beam_size` hypotheses per entry, and for
every hypothesis at most `max_time` tokens and at least as many timesteps as
tokens (`max_time` fitting in an `int`), `beam_decoder` returns the tuple
`(output, scores, timesteps, output_length)` of tensors of sizes
`{B, beam_size, max_time}` and `{B, beam_size}` in which, for every batch
index `b`, hypothesis index `p` and token index `t` of the results, all within
these sizes, `output[b][p][t]` is the token, `timesteps[b][p][t]` the
timestep, `scores[b][p]` the probability and `output_length[b][p]` the token
count. -/
theorem beam_decoder_packs_results (log : D → D)
    (decoder : DecoderArgs F D L → Outcome (List (List (Output F)))) (u : Uninit F)
    (log_probs : InTensor F) (seq_lengths : InTensor Int)
    (blank_id beam_size num_processes : Int) (cutoff_prob : D) (cutoff_top_n : Int)
    (scorer : L) (B M C S : Nat) (batch_results : List (List (Output F)))
    (hc1 : log_probs.is_contiguous = true) (hc2 : seq_lengths.is_contiguous = true)
    (hlp : log_probs.sizes = [B, M, C]) (hsl : seq_lengths.sizes = [S])
    (hdec : decoder (decoderArgs log log_probs seq_lengths B M C S blank_id beam_size
      num_processes cutoff_prob cutoff_top_n scorer) = Outcome.ok batch_results)
    (hbeam : 0 ≤ beam_size) (hB : batch_results.length ≤ B)
    (hP : ∀ r ∈ batch_results, r.length ≤ beam_size.toNat)
    (hres : ∀ r ∈ batch_results, ∀ o ∈ r,
      o.tokens.length ≤ M ∧ o.tokens.length ≤ o.timesteps.length)
    (hM : M < 2 ^ 31) :
    ∃ (output : Tensor3 Int) (scores : Tensor2 F) (timesteps : Tensor3 Int)
        (output_length : Tensor2 Int),
      beam_decoder log decoder u log_probs seq_lengths blank_id beam_size num_processes
          cutoff_prob cutoff_top_n scorer =
        Outcome.ok (output, scores, timesteps, output_length) ∧
      (output.d0 = B ∧ output.d1 = beam_size.toNat ∧ output.d2 = M) ∧
      (timesteps.d0 = B ∧ timesteps.d1 = beam_size.toNat ∧ timesteps.d2 = M) ∧
      (scores.d0 = B ∧ scores.d1 = beam_size.toNat) ∧
      (output_length.d0 = B ∧ output_length.d1 = beam_size.toNat) ∧
      ∀ (b : Nat) (r : List (Output F)) (p : Nat) (o : Output F),
        batch_results[b]? = some r → r[p]? = some o →
        b < B ∧ p < beam_size.toNat ∧
        scores.data b p = o.probability ∧
        output_length.data b p = (o.tokens.length : Int) ∧
        ∀ (t : Nat) (tok : Int), o.tokens[t]? = some tok →
          t < M ∧ output.data b p t = tok ∧
          ∃ ts, o.timesteps[t]? = some ts ∧ timesteps.data b p t = ts := by
  obtain ⟨T, hT, hs, -, hrows⟩ := packResults_ok u B beam_size M batch_results hbeam hB hP hres
  obtain ⟨h1, h2, h3, h4, h5, h6, h7, h8, h9, h10⟩ := hs
  refine ⟨T.output, T.scores, T.timesteps, T.output_length, ?_, ⟨h1, h2, h3⟩, ⟨h4, h5, h6⟩,
    ⟨h7, h8⟩, ⟨h9, h10⟩, ?_⟩
  · rw [beam_decoder_eq log decoder u log_probs seq_lengths blank_id beam_size num_processes
      cutoff_prob cutoff_top_n scorer B M C S hc1 hc2 hlp hsl, hdec]
    exact hT
  · intro b r p o hbr hpo
    obtain ⟨hb, hbe⟩ := List.getElem?_eq_some_iff.mp hbr
    obtain ⟨hp, hpe⟩ := List.getElem?_eq_some_iff.mp hpo
    have hrm : r ∈ batch_results := hbe ▸ List.getElem_mem hb
    have hom : o ∈ r := hpe ▸ List.getElem_mem hp
    have hPr := hP r hrm
    obtain ⟨hoM, hoT⟩ := hres r hrm o hom
    obtain ⟨r1, r2, r3, r4⟩ := hrows b r p o hbr hpo
    refine ⟨by omega, by omega, r3, ?_, ?_⟩
    · rw [r4, toInt32_of_lt _ (by omega)]
    · intro t tok htok
      obtain ⟨ht, hte⟩ := List.getElem?_eq_some_iff.mp htok
      have ht2 : t < o.timesteps.length := by omega
      refine ⟨by omega, ?_, o.timesteps[t], List.getElem?_eq_getElem ht2, ?_⟩
      · rw [r1 t, if_pos ht, List.getD_eq_getElem?_getD, htok]
        rfl
      · rw [r2 t, if_pos ht, List.getD_eq_getElem?_getD, List.getElem?_eq_getElem ht2]
        rfl

/-- C7 (as amended): under the same bounds on the decoder's results, every
cell of the returned tensors that is not written from a hypothesis keeps the
content the memory handed out by `torch::empty` had: `output[b][p][t]` and
`timesteps[b][p][t]` for `t` at or beyond the token count of hypothesis `p`,
and `output_length[b][p]`, `scores[b][p]` and the whole `output` and
`timesteps` rows for `p` at or beyond the number of hypotheses returned for
`b`. -/
theorem beam_decoder_keeps_unwritten_cells (log : D → D)
    (decoder : DecoderArgs F D L → Outcome (List (List (Output F)))) (u : Uninit F)
    (log_probs : InTensor F) (seq_lengths : InTensor Int)
    (blank_id beam_size num_processes : Int) (cutoff_prob : D) (cutoff_top_n : Int)
    (scorer : L) (B M C S : Nat) (batch_results : List (List (Output F)))
    (hc1 : log_probs.is_contiguous = true) (hc2 : seq_lengths.is_contiguous = true)
    (hlp : log_probs.sizes = [B, M, C]) (hsl : seq_lengths.sizes = [S])
    (hdec : decoder (decoderArgs log log_probs seq_lengths B M C S blank_id beam_size
      num_processes cutoff_prob cutoff_top_n scorer) = Outcome.ok batch_results)
    (hbeam : 0 ≤ beam_size) (hB : batch_results.length ≤ B)
    (hP : ∀ r ∈ batch_results, r.length ≤ beam_size.toNat)
    (hres : ∀ r ∈ batch_results, ∀ o ∈ r,
      o.tokens.length ≤ M ∧ o.tokens.length ≤ o.timesteps.length) :
    ∃ (output : Tensor3 Int) (scores : Tensor2 F) (timesteps : Tensor3 Int)
        (output_length : Tensor2 Int),
      beam_decoder log decoder u log_probs seq_lengths blank_id beam_size num_processes
          cutoff_prob cutoff_top_n scorer =
        Outcome.ok (output, scores, timesteps, output_length) ∧
      (∀ (b : Nat) (r : List (Output F)) (p : Nat) (o : Output F),
        batch_results[b]? = some r → r[p]? = some o →
        ∀ t, o.tokens.length ≤ t →
          output.data b p t = u.output b p t ∧ timesteps.data b p t = u.timesteps b p t) ∧
      (∀ (b p : Nat), (∀ r, batch_results[b]? = some r → r.length ≤ p) →
        output_length.data b p = u.output_length b p ∧
        scores.data b p = u.scores b p ∧
        ∀ t, output.data b p t = u.output b p t ∧ timesteps.data b p t = u.timesteps b p t) := by
  obtain ⟨T, hT, -, hframe, hrows⟩ :=
    packResults_ok u B beam_size M batch_results hbeam hB hP hres
  refine ⟨T.output, T.scores, T.timesteps, T.output_length, ?_, ?_, ?_⟩
  · rw [beam_decoder_eq log decoder u log_probs seq_lengths blank_id beam_size num_processes
      cutoff_prob cutoff_top_n scorer B M C S hc1 hc2 hlp hsl, hdec]
    exact hT
  · intro b r p o hbr hpo t ht
    obtain ⟨r1, r2, -, -⟩ := hrows b r p o hbr hpo
    have hnt : ¬ t < o.tokens.length := by omega
    exact ⟨by rw [r1 t, if_neg hnt], by rw [r2 t, if_neg hnt]⟩
  · intro b p hbp
    obtain ⟨f1, f2, f3, f4⟩ := hframe b p hbp
    exact ⟨f4, f3, fun t => ⟨f1 t, f2 t⟩⟩

/-- The packing theorem at a batch of two with `beam_size = 2` and
`max_time = 3`: the one hypothesis of the first entry is found in row `0`. -/
theorem beam_decoder_packs_results_witness :
    ∃ (output : Tensor3 Int) (scores : Tensor2 ℚ) (timesteps : Tensor3 Int)
        (output_length : Tensor2 Int),
      beam_decoder Demo.Dbl.log Demo.fixedDecoder Demo.garbage Demo.logProbs Demo.seqLengths
          0 2 1 (Demo.Dbl.val 1) 4 () = Outcome.ok (output, scores, timesteps, output_length) ∧
      scores.data 0 0 = -3 / 2 ∧ output_length.data 0 0 = 2 ∧
      output.data 0 0 1 = 6 ∧ timesteps.data 0 0 1 = 2 := by
  obtain ⟨output, scores, timesteps, output_length, h, -, -, -, -, hcells⟩ :=
    beam_decoder_packs_results Demo.Dbl.log Demo.fixedDecoder Demo.garbage Demo.logProbs
      Demo.seqLengths 0 2 1 (Demo.Dbl.val 1) 4 () 2 3 4 2
      [[{ tokens := [4, 6], timesteps := [0, 2], probability := -3 / 2 }], []]
      rfl rfl rfl rfl rfl (by decide) (by decide) (by decide) (by decide) (by decide)
  obtain ⟨-, -, hsc, hlen, htok⟩ :=
    hcells 0 [{ tokens := [4, 6], timesteps := [0, 2], probability := -3 / 2 }] 0
      { tokens := [4, 6], timesteps := [0, 2], probability := -3 / 2 } rfl rfl
  obtain ⟨-, hout, ts, hts, htm⟩ := htok 1 6 rfl
  refine ⟨output, scores, timesteps, output_length, h, hsc, hlen, hout, ?_⟩
  have : ts = 2 := by
    have h2 : ([0, 2] : List Int)[1]? = some 2 := rfl
    exact Option.some.inj (hts.symm.trans h2)
  rw [htm, this]

/-- C7, counterexample: with memory that is not zero beforehand, the cells
beyond the two tokens of the hypothesis (`output[0][0][2]`,
`timesteps[0][0][2]`) and the rows without a hypothesis
(`output_length[0][1]`, `output[0][1][0]`, `output_length[1][0]`) are not
zero in the returned tensors. -/
theorem beam_decoder_padding_is_not_zeroed :
    (beam_decoder Demo.Dbl.log Demo.fixedDecoder Demo.garbage Demo.logProbs Demo.seqLengths
        0 2 1 (Demo.Dbl.val 1) 4 ()).toOption.map
      (fun r => [r.1.data 0 0 0, r.1.data 0 0 1, r.1.data 0 0 2, r.2.2.1.data 0 0 2,
        r.2.2.2.data 0 1, r.1.data 0 1 0, r.2.2.2.data 1 0]) =
      some [4, 6, 7, 8, 5, 7, 5] := by
  decide

/-- The theorem on unwritten cells at the same call: the padding cell
`output[0][0][2]` and the length of the empty row `1` of the second batch
entry hold the previous memory content. -/
theorem beam_decoder_keeps_unwritten_cells_witness :
    ∃ (output : Tensor3 Int) (scores : Tensor2 ℚ) (timesteps : Tensor3 Int)
        (output_length : Tensor2 Int),
      beam_decoder Demo.Dbl.log Demo.fixedDecoder Demo.garbage Demo.logProbs Demo.seqLengths
          0 2 1 (Demo.Dbl.val 1) 4 () = Outcome.ok (output, scores, timesteps, output_length) ∧
      output.data 0 0 2 = 7 ∧ output_length.data 1 1 = 5 := by
  obtain ⟨output, scores, timesteps, output_length, h, hpad, hrow⟩ :=
    beam_decoder_keeps_unwritten_cells Demo.Dbl.log Demo.fixedDecoder Demo.garbage Demo.logProbs
      Demo.seqLengths 0 2 1 (Demo.Dbl.val 1) 4 () 2 3 4 2
      [[{ tokens := [4, 6], timesteps := [0, 2], probability := -3 / 2 }], []]
      rfl rfl rfl rfl rfl (by decide) (by decide) (by decide) (by decide)
  refine ⟨output, scores, timesteps, output_length, h, ?_, ?_⟩
  · exact (hpad 0 [{ tokens := [4, 6], timesteps := [0, 2], probability := -3 / 2 }] 0
      { tokens := [4, 6], timesteps := [0, 2], probability := -3 / 2 } rfl rfl 2
      (by decide)).1
  · refine (hrow 1 1 ?_).1
    intro r hr
    have h2 : ([[{ tokens := [4, 6], timesteps := [0, 2], probability := -3 / 2 }], []] :
        List (List (Output ℚ)))[1]? = some [] := rfl
    have : r = [] := Option.some.inj (hr.symm.trans h2)
    subst this
    decide

end Binding

end CTCDecode
